import Mathlib

/-! Verification development for the novel-analyzer repository.

The Python source (src/novel_analyzer.py) is shallowly embedded below:
strings are modelled as `List Char` (Python code points), the heading
regular expression of `split_into_chapters` as an explicit deterministic
scanner, the character merge as a fold over association lists, the report
renderer as string concatenation, and the model-API retry loop as a
function of a sequence of per-attempt outcomes. -/

/-- The whitespace characters recognised by Python's str.strip and the
regular-expression class \s on str (ASCII whitespace plus the Unicode
whitespace code points). -/
def pySpaceChars : List Char :=
  [' ', '\t', '\n', '\r', '\x0b', '\x0c', '\x1c', '\x1d', '\x1e', '\x1f',
   '\x85', '\xa0', ' ', ' ', ' ', ' ', ' ', ' ',
   ' ', ' ', ' ', ' ', ' ', ' ', ' ',
   ' ', ' ', ' ', '　']

def isPySpace (c : Char) : Bool := pySpaceChars.contains c

/-- Python str.strip(): remove leading and trailing whitespace. -/
def pyStrip (l : List Char) : List Char :=
  ((l.dropWhile isPySpace).reverse.dropWhile isPySpace).reverse

/-- The character class of the chapter-number token in the heading pattern,
Python regex class [0-9零一二三四五六七八九十百千万]. -/
def headingNumChars : List Char :=
  ['0', '1', '2', '3', '4', '5', '6', '7', '8', '9',
   '零', '一', '二', '三', '四', '五', '六', '七', '八', '九', '十', '百', '千', '万']

def isHeadingNum (c : Char) : Bool := headingNumChars.contains c

/-- Attempt to match the heading pattern
(第[0-9零一二三四五六七八九十百千万]+章\s[^\n]+)\n
at the head of the character list.  Because each quantified class excludes
the character that must follow it, the Python backtracking match is
deterministic: each + takes its maximal run.  Returns the length of
capturing group 1 (the full match is one character longer, the final
newline). -/
def matchHeadingAt : List Char → Option Nat
  | [] => none
  | c :: rest =>
    if c = '第' then
      let k := (rest.takeWhile isHeadingNum).length
      if k = 0 then none
      else
        match rest.drop k with
        | [] => none
        | c2 :: rest2 =>
          if c2 = '章' then
            match rest2 with
            | [] => none
            | w :: rest3 =>
              if isPySpace w then
                let t := (rest3.takeWhile (fun ch => ch ≠ '\n')).length
                if t = 0 then none
                else
                  match rest3.drop t with
                  | [] => none
                  | nl :: _ => if nl = '\n' then some (3 + k + t) else none
              else none
          else none
    else none

/-- Python re.finditer over the document: scan left to right, emit each
leftmost non-overlapping match and resume after its end.  Each emitted
pair is (absolute start position, group-1 length); the full match length
is the group length plus one (the trailing newline).  The fuel argument
makes the recursion structural; every step consumes at least one
character, so fuel equal to the list length is enough. -/
def scanMatchesFuel : Nat → List Char → Nat → List (Nat × Nat)
  | 0, _, _ => []
  | _, [], _ => []
  | fuel + 1, c :: rest, pos =>
    match matchHeadingAt (c :: rest) with
    | some g => (pos, g) :: scanMatchesFuel fuel (rest.drop g) (pos + g + 1)
    | none => scanMatchesFuel fuel rest (pos + 1)

def scanMatches (s : List Char) (pos : Nat) : List (Nat × Nat) :=
  scanMatchesFuel s.length s pos

structure Chapter where
  title : List Char
  content : List Char
deriving DecidableEq

/-- Python content[a:b].strip(). -/
def sliceStrip (content : List Char) (a b : Nat) : List Char :=
  pyStrip ((content.drop a).take (b - a))

/-- The loop body of split_into_chapters: for match i, the title is
group(1).strip() and the content runs from match.end() to the start of
match i+1 (or to the end of the document), stripped. -/
def buildChapters (content : List Char) : List (Nat × Nat) → List Chapter
  | [] => []
  | (st, g) :: rest =>
    let endPos :=
      match rest with
      | (st2, _) :: _ => st2
      | [] => content.length
    { title := pyStrip ((content.drop st).take g),
      content := sliceStrip content (st + g + 1) endPos } :: buildChapters content rest

/-- The sentinel title 全文 ("full text") used when no heading matches. -/
def sentinelTitle : List Char := ['全', '文']

/-- split_into_chapters from src/novel_analyzer.py: if the heading pattern
has no match, the whole document becomes one chapter titled 全文 with the
document text as content; otherwise one chapter per match. -/
def split_into_chapters (content : List Char) : List Chapter :=
  let ms := scanMatches content 0
  if ms = [] then [{ title := sentinelTitle, content := content }]
  else buildChapters content ms

/-- A raw per-chapter character record as handed to merge_character_data:
a Python dict whose six fields may each be present (some) or absent
(none). -/
structure CharRecord where
  name : Option String
  appearance : Option String
  personality : Option String
  relationships : Option String
  first_appearance : Option String
  significance : Option String
deriving DecidableEq

/-- A merged character record: the raw fields (copied by the dict spread)
plus the appearances counter and the chapters list. -/
structure MergedRecord where
  name : Option String
  appearance : Option String
  personality : Option String
  relationships : Option String
  first_appearance : Option String
  significance : Option String
  appearances : Nat
  chapters : List String
deriving DecidableEq

/-- Seeding branch of merge_character_data for a name seen for the first
time: the dict spread of the record plus appearances = 1 and chapters
holding the record's first_appearance value (empty string when absent). -/
def seedRecord (c : CharRecord) : MergedRecord :=
  { name := c.name
    appearance := c.appearance
    personality := c.personality
    relationships := c.relationships
    first_appearance := c.first_appearance
    significance := c.significance
    appearances := 1
    chapters := [c.first_appearance.getD ""] }

/-- The per-field update of merge_character_data: the stored value is
replaced when the incoming field is present, truthy (non-empty), and
either the stored field is absent or strictly shorter than the incoming
value. -/
def updateField (stored incoming : Option String) : Option String :=
  match incoming with
  | none => stored
  | some v =>
    if v ≠ "" ∧ (stored = none ∨ (stored.getD "").length < v.length) then some v
    else stored

/-- The already-seen branch of merge_character_data: bump appearances,
append the record's first_appearance to chapters, and update the four
descriptive fields. -/
def mergeInto (m : MergedRecord) (c : CharRecord) : MergedRecord :=
  { m with
    appearances := m.appearances + 1
    chapters := m.chapters ++ [c.first_appearance.getD ""]
    appearance := updateField m.appearance c.appearance
    personality := updateField m.personality c.personality
    relationships := updateField m.relationships c.relationships
    significance := updateField m.significance c.significance }

/-- Lookup in the insertion-ordered association list that models the
Python dict merged. -/
def lookupName (n : String) : List (String × MergedRecord) → Option MergedRecord
  | [] => none
  | (k, v) :: rest => if k = n then some v else lookupName n rest

/-- In-place value update of the association list at a key, preserving
insertion order (Python dict assignment to an existing key). -/
def updateAssoc (n : String) (c : CharRecord) :
    List (String × MergedRecord) → List (String × MergedRecord)
  | [] => []
  | (k, v) :: rest =>
    if k = n then (k, mergeInto v c) :: rest else (k, v) :: updateAssoc n c rest

/-- Processing of one raw record by merge_character_data: a falsy name
(absent or empty) is discarded; a new name is inserted at the end with the
seed record; an existing name is merged in place. -/
def mergeOne (acc : List (String × MergedRecord)) (c : CharRecord) :
    List (String × MergedRecord) :=
  match c.name with
  | none => acc
  | some n =>
    if n = "" then acc
    else
      match lookupName n acc with
      | none => acc ++ [(n, seedRecord c)]
      | some _ => updateAssoc n c acc

/-- merge_character_data from src/novel_analyzer.py: fold over the
chapters and, within each chapter, over its records. -/
def merge_character_data (lists : List (List CharRecord)) :
    List (String × MergedRecord) :=
  lists.foldl (fun acc chars => chars.foldl mergeOne acc) []

/-- First-seen-order deduplication of a stream of name strings, skipping
empty names and names already seen: the key order a Python dict acquires
when keys are inserted on first encounter. -/
def newNames (seen : List String) : List String → List String
  | [] => []
  | n :: rest =>
    if n = "" ∨ n ∈ seen then newNames seen rest
    else n :: newNames (n :: seen) rest

/-- One 60-character rule line plus newline, Python "━" * 60 + "\n". -/
def ruleLine : String := String.mk (List.replicate 60 '━') ++ "\n"

/-- The per-character f-string of generate_final_report (without the rule
line appended after it). -/
def characterSection (name : String) (d : MergedRecord) : String :=
  "\n■ 角色名称: " ++ name ++
  "\n    ▸ 出现次数: " ++ toString d.appearances ++
  "\n    ▸ 出现章节: " ++ String.intercalate ", " d.chapters ++
  "\n    ▸ 外貌特征: " ++ d.appearance.getD "无记录" ++
  "\n    ▸ 性格特点: " ++ d.personality.getD "无记录" ++
  "\n    ▸ 人物关系: " ++ d.relationships.getD "无记录" ++
  "\n    ▸ 角色重要性: " ++ d.significance.getD "无记录" ++ "\n"

/-- The statistics header f-string of generate_final_report.  The success
count is an integer subtraction in Python, so it is taken in Int. -/
def reportHeader (nChapters failed nCharacters : Nat) : String :=
  "=== 小说角色分析报告 ===\n\n【统计信息】\n总章节数: " ++ toString nChapters ++
  "\n成功分析: " ++ toString ((nChapters : Int) - (failed : Int)) ++
  "\n失败章节: " ++ toString failed ++
  "\n发现角色: " ++ toString nCharacters ++
  "\n\n【角色详细信息】\n"

/-- generate_final_report from src/novel_analyzer.py: the statistics
header followed, for each character in mapping order, by its section and
a rule line, accumulated by string concatenation as in the Python loop. -/
def generate_final_report (chapters : List Chapter)
    (characters : List (String × MergedRecord)) (failed : Nat) : String :=
  characters.foldl (fun rep nd => rep ++ characterSection nd.1 nd.2 ++ ruleLine)
    (reportHeader chapters.length failed characters.length)

/-- What an HTTP response body yields when _call_model_api parses it. -/
inductive ParseResult where
  | decodeError
  | nonDict
  | missingFields
  | ok (d : String)
deriving DecidableEq

/-- The outcome of one attempt of the retry loop of _call_model_api: the
post call times out, raises some other exception, or returns a response
with a status code and a parse of its body. -/
inductive AttemptOutcome where
  | timeout
  | otherException
  | response (status : Nat) (parse : ParseResult)
deriving DecidableEq

/-- The retry loop of _call_model_api, instrumented: given the retry
delay, max_retries, the per-attempt outcomes, the current attempt index
and the remaining loop iterations, return the result together with the
number of attempts made and the total time slept.  A timeout sleeps the
delay (only when the attempt is not the last one) and continues; a
non-200 status, a JSON decode error, a non-dict body or missing fields
continue without sleeping; any other exception breaks; a well-formed 200
response returns. -/
def callApiAux (d maxR : Nat) (f : Nat → AttemptOutcome) :
    Nat → Nat → Option String × Nat × Nat
  | _, 0 => (none, 0, 0)
  | attempt, fuel + 1 =>
    match f attempt with
    | AttemptOutcome.timeout =>
      let r := callApiAux d maxR f (attempt + 1) fuel
      (r.1, r.2.1 + 1, r.2.2 + if attempt < maxR - 1 then d else 0)
    | AttemptOutcome.otherException => (none, 1, 0)
    | AttemptOutcome.response status p =>
      if status ≠ 200 then
        let r := callApiAux d maxR f (attempt + 1) fuel
        (r.1, r.2.1 + 1, r.2.2)
      else
        match p with
        | ParseResult.ok v => (some v, 1, 0)
        | _ =>
          let r := callApiAux d maxR f (attempt + 1) fuel
          (r.1, r.2.1 + 1, r.2.2)

/-- The configured retry delay (seconds), self.retry_delay. -/
def retry_delay : Nat := 30

/-- The configured bound on attempts, self.max_retries. -/
def max_retries : Nat := 3

/-- _call_model_api from src/novel_analyzer.py as a function of the
sequence of per-attempt outcomes: for attempt in range(max_retries), with
the instrumentation of callApiAux. -/
def _call_model_api (f : Nat → AttemptOutcome) : Option String × Nat × Nat :=
  callApiAux retry_delay max_retries f 0 max_retries

/-- An outcome is retryable when the loop body falls through to the next
iteration on it: a timeout, a non-200 status, or a 200 response whose
body fails to parse into the expected shape. -/
def isRetryable : AttemptOutcome → Bool
  | AttemptOutcome.timeout => true
  | AttemptOutcome.otherException => false
  | AttemptOutcome.response status p =>
    if status ≠ 200 then true
    else
      match p with
      | ParseResult.ok _ => false
      | _ => true

/-- Number of sleeps the loop performs: one for each timeout outcome at
an attempt index below max_retries - 1, among the attempts made. -/
def countTimeoutSleeps (f : Nat → AttemptOutcome) (maxR : Nat) :
    Nat → Nat → Nat
  | _, 0 => 0
  | a, n + 1 =>
    (if f a = AttemptOutcome.timeout ∧ a < maxR - 1 then 1 else 0) +
      countTimeoutSleeps f maxR (a + 1) n


/-- Field-update policy transcribed from the spec's words: replace the
stored value with the incoming one exactly when the incoming value is
present, non-empty, and strictly longer (by character count) than the
currently stored value (the empty string standing for an absent stored
value). -/
def specMergeField (stored incoming : Option String) : Option String :=
  match incoming with
  | none => stored
  | some v =>
    if v ≠ "" ∧ (stored.getD "").length < v.length then some v
    else stored

/-- A character section transcribed from the spec's words: name,
appearance count, comma-joined chapter list, and the four descriptive
fields, each showing the no-record placeholder exactly when the key is
absent, the section ending with the visual rule line. -/
def specSection (nd : String × MergedRecord) : String :=
  "\n■ 角色名称: " ++ nd.1 ++
  "\n    ▸ 出现次数: " ++ toString nd.2.appearances ++
  "\n    ▸ 出现章节: " ++ String.intercalate ", " nd.2.chapters ++
  "\n    ▸ 外貌特征: " ++ (match nd.2.appearance with
    | none => "无记录"
    | some v => v) ++
  "\n    ▸ 性格特点: " ++ (match nd.2.personality with
    | none => "无记录"
    | some v => v) ++
  "\n    ▸ 人物关系: " ++ (match nd.2.relationships with
    | none => "无记录"
    | some v => v) ++
  "\n    ▸ 角色重要性: " ++ (match nd.2.significance with
    | none => "无记录"
    | some v => v) ++ "\n" ++ ruleLine

/-- The concatenation of the per-character sections, one per character in
mapping order. -/
def specSections : List (String × MergedRecord) → String
  | [] => ""
  | nd :: rest => specSection nd ++ specSections rest

/-- Report shape transcribed from the spec's words: a statistics block
showing chapter count, success count (chapter count minus failed count),
failure count and character count, followed by one section per character
in mapping order. -/
def reportSpec (chapters : List Chapter)
    (characters : List (String × MergedRecord)) (failed : Nat) : String :=
  reportHeader chapters.length failed characters.length ++ specSections characters

/-- Attempt outcomes in which the first attempt fails without a timeout
(HTTP 500 with an unparsable body) and the second attempt succeeds. -/
def cexOutcomes : Nat → AttemptOutcome := fun k =>
  if k = 0 then AttemptOutcome.response 500 ParseResult.decodeError
  else AttemptOutcome.response 200 (ParseResult.ok "ok")

/-- A document whose only heading-shaped line is its last line and which
does not end in a newline: 第1章 abc with no trailing newline. -/
def lastLineHeadingDoc : List Char := ['第', '1', '章', ' ', 'a', 'b', 'c']

/-- A document with one matched heading, then a body line, then a
heading-shaped final line not followed by a newline. -/
def absorbedHeadingDoc : List Char :=
  ['第', '1', '章', ' ', 'a', '\n', 'x', '\n', '第', '2', '章', ' ', 'b']

/-- A document with no heading match and surrounding whitespace. -/
def noHeadingDoc : List Char := [' ', 'h', 'i', ' ']

/-- A document with exactly two heading matches. -/
def twoHeadingDoc : List Char :=
  ['第', '1', '章', ' ', 'A', '\n', 'h', 'i', '\n',
   '第', '2', '章', ' ', 'B', '\n', 'y', 'o', '\n']

/-- A document with exactly one heading match followed by body text that
resembles chapter content without matching the pattern. -/
def oneHeadingDoc : List Char :=
  ['第', '1', '章', ' ', 'A', '\n', 'h', 'i', '\n', 'y', 'o', '\n']

/-- A concrete raw record used by witnesses. -/
def wRecord : CharRecord :=
  { name := some "甲"
    appearance := some "高"
    personality := some "冷静"
    relationships := none
    first_appearance := some "第1章"
    significance := some "" }

/-- A concrete raw record with an absent name. -/
def noNameRecord : CharRecord :=
  { name := none
    appearance := some "高"
    personality := none
    relationships := none
    first_appearance := some "第1章"
    significance := none }

theorem dropTakeLength {α : Type} (l : List α) (n : Nat) :
    (l.drop n).take (l.length - n) = l.drop n := by
  rw [← List.length_drop]
  exact List.take_length _

theorem matchHeadingAt_newline : ∀ (s : List Char) (g : Nat),
    matchHeadingAt s = some g → s[g]? = some '\n' := by
  intro s g hm
  cases s with
  | nil => simp [matchHeadingAt] at hm
  | cons c rest =>
    simp only [matchHeadingAt] at hm
    by_cases hc : c = '第'
    swap
    · rw [if_neg hc] at hm; cases hm
    rw [if_pos hc] at hm
    by_cases hk : (rest.takeWhile isHeadingNum).length = 0
    · rw [if_pos hk] at hm; cases hm
    rw [if_neg hk] at hm
    cases hd1 : rest.drop (rest.takeWhile isHeadingNum).length with
    | nil => rw [hd1] at hm; cases hm
    | cons c2 rest2 =>
      rw [hd1] at hm
      dsimp only at hm
      by_cases hc2 : c2 = '章'
      swap
      · rw [if_neg hc2] at hm; cases hm
      rw [if_pos hc2] at hm
      cases rest2 with
      | nil => exact absurd hm (by simp)
      | cons w rest3 =>
        dsimp only at hm
        by_cases hw : isPySpace w
        swap
        · rw [if_neg (by simpa using hw)] at hm; cases hm
        rw [if_pos (by simpa using hw)] at hm
        by_cases ht : (rest3.takeWhile (fun ch => ch ≠ '\n')).length = 0
        · rw [if_pos ht] at hm; cases hm
        rw [if_neg ht] at hm
        cases hd3 : rest3.drop (rest3.takeWhile (fun ch => ch ≠ '\n')).length with
        | nil => rw [hd3] at hm; cases hm
        | cons nl tail =>
          rw [hd3] at hm
          dsimp only at hm
          by_cases hnl : nl = '\n'
          swap
          · rw [if_neg hnl] at hm; cases hm
          rw [if_pos hnl] at hm
          have hg : 3 + (rest.takeWhile isHeadingNum).length +
              (rest3.takeWhile (fun ch => ch ≠ '\n')).length = g := by
            simpa using hm
          subst hg
          set k := (rest.takeWhile isHeadingNum).length with hkdef
          set t := (rest3.takeWhile (fun ch => ch ≠ '\n')).length with htdef
          have e1 : 3 + k + t = (2 + k + t) + 1 := by omega
          rw [e1, List.getElem?_cons_succ]
          have e2 : 2 + k + t = k + (2 + t) := by omega
          rw [e2, ← List.getElem?_drop, hd1]
          have e3 : (2 : Nat) + t = (1 + t) + 1 := by omega
          rw [e3, List.getElem?_cons_succ]
          have e4 : (1 : Nat) + t = t + 1 := by omega
          rw [e4, List.getElem?_cons_succ]
          have h6 := List.getElem?_drop rest3 t 0
          rw [hd3] at h6
          simp at h6
          rw [← h6, hnl]

theorem scanMatchesFuel_mem :
    ∀ (fuel : Nat) (s : List Char) (pos st g : Nat),
      (st, g) ∈ scanMatchesFuel fuel s pos →
      ∃ k, st = pos + k ∧ matchHeadingAt (s.drop k) = some g := by
  intro fuel
  induction fuel with
  | zero =>
    intro s pos st g h
    simp [scanMatchesFuel] at h
  | succ n ih =>
    intro s pos st g h
    cases s with
    | nil => simp [scanMatchesFuel] at h
    | cons c rest =>
      rw [scanMatchesFuel] at h
      cases hm : matchHeadingAt (c :: rest) with
      | some g0 =>
        rw [hm] at h
        simp only [List.mem_cons] at h
        rcases h with h | h
        · refine ⟨0, ?_, ?_⟩
          · have : st = pos := by simpa using congrArg Prod.fst h
            omega
          · have : g = g0 := by simpa using congrArg Prod.snd h
            rw [List.drop_zero, hm, this]
        · obtain ⟨k, hk, hmk⟩ := ih _ _ _ _ h
          refine ⟨g0 + 1 + k, by omega, ?_⟩
          rw [List.drop_drop] at hmk
          have : List.drop (g0 + 1 + k) (c :: rest) = List.drop (g0 + k) rest := by
            have e : g0 + 1 + k = (g0 + k) + 1 := by omega
            rw [e, List.drop_succ_cons]
          rw [this, hmk]
      | none =>
        rw [hm] at h
        obtain ⟨k, hk, hmk⟩ := ih _ _ _ _ h
        refine ⟨k + 1, by omega, ?_⟩
        rw [List.drop_succ_cons, hmk]

theorem scanMatches_mem_newline (content : List Char) (st g : Nat)
    (h : (st, g) ∈ scanMatches content 0) : content[st + g]? = some '\n' := by
  obtain ⟨k, hk, hmk⟩ := scanMatchesFuel_mem _ _ _ _ _ h
  have := matchHeadingAt_newline _ _ hmk
  rw [List.getElem?_drop] at this
  have e : st + g = k + g := by omega
  rw [e, this]

/-- C1 counterexample: on the document " hi " the heading pattern finds
zero matches and split_into_chapters returns the document text verbatim
as the single chapter's content, which differs from its trimmed form, so
the claim that the content is trimmed is false at this input. -/
theorem C1_counterexample :
    scanMatches noHeadingDoc 0 = [] ∧
    split_into_chapters noHeadingDoc =
      [{ title := sentinelTitle, content := noHeadingDoc }] ∧
    pyStrip noHeadingDoc ≠ noHeadingDoc := by
  refine ⟨by decide, by decide, by decide⟩

/-- C1 (amended): for every document in which the heading pattern finds
zero matches, split_into_chapters returns exactly one chapter whose title
is the sentinel value 全文 and whose content is the full document text,
taken verbatim (not trimmed). -/
theorem C1_amended_no_match_single_sentinel_chapter (content : List Char)
    (h : scanMatches content 0 = []) :
    split_into_chapters content = [{ title := sentinelTitle, content := content }] := by
  simp [split_into_chapters, h]

/-- C1 witness: the amended statement instantiated at the concrete
document " hi ". -/
theorem C1_witness :
    split_into_chapters noHeadingDoc =
      [{ title := sentinelTitle, content := noHeadingDoc }] :=
  C1_amended_no_match_single_sentinel_chapter noHeadingDoc (by decide)

/-- C5: for every document on which the heading pattern finds exactly two
matches, split_into_chapters returns exactly two chapters in source
order; each title is the matched heading line (group 1, stripped) and
each content is the text from the end of the heading match (group end
plus the newline) to the start of the next match, or to the end of the
document for the last chapter, stripped of surrounding whitespace. -/
theorem C5_two_matches_two_chapters (content : List Char) (s1 g1 s2 g2 : Nat)
    (h : scanMatches content 0 = [(s1, g1), (s2, g2)]) :
    split_into_chapters content =
      [{ title := pyStrip ((content.drop s1).take g1),
         content := pyStrip ((content.drop (s1 + g1 + 1)).take (s2 - (s1 + g1 + 1))) },
       { title := pyStrip ((content.drop s2).take g2),
         content := pyStrip (content.drop (s2 + g2 + 1)) }] := by
  simp only [split_into_chapters, h]
  rw [if_neg (by simp)]
  simp only [buildChapters, sliceStrip]
  rw [dropTakeLength]

/-- C5 witness: a concrete document with exactly two heading matches. -/
theorem C5_witness :
    split_into_chapters twoHeadingDoc =
      [{ title := ['第', '1', '章', ' ', 'A'], content := ['h', 'i'] },
       { title := ['第', '2', '章', ' ', 'B'], content := ['y', 'o'] }] := by
  rw [C5_two_matches_two_chapters twoHeadingDoc 0 5 9 5 (by decide)]
  decide

/-- C6: for every document on which the heading pattern finds exactly one
match, split_into_chapters returns exactly one chapter whose title is the
matched heading line (stripped) and whose content is all the text after
the heading match, trimmed; any following text not matching the pattern
is absorbed into this single chapter. -/
theorem C6_one_match_single_chapter (content : List Char) (s g : Nat)
    (h : scanMatches content 0 = [(s, g)]) :
    split_into_chapters content =
      [{ title := pyStrip ((content.drop s).take g),
         content := pyStrip (content.drop (s + g + 1)) }] := by
  simp only [split_into_chapters, h]
  rw [if_neg (by simp)]
  simp only [buildChapters, sliceStrip]
  rw [dropTakeLength]

/-- C6 witness: a concrete document with one heading followed by body
lines that resemble chapter content but match no heading; they are
absorbed into the single chapter. -/
theorem C6_witness :
    split_into_chapters oneHeadingDoc =
      [{ title := ['第', '1', '章', ' ', 'A'],
         content := ['h', 'i', '\n', 'y', 'o'] }] := by
  rw [C6_one_match_single_chapter oneHeadingDoc 0 5 (by decide)]
  decide

/-- C10: the heading pattern consumes a literal newline after the heading
line: every match found by the scanner has the newline character at its
final position (start + group length), so a heading-shaped final line of
a document that does not end in a newline is never detected.  On the
concrete document 第1章 abc (no trailing newline) the splitter therefore
returns the single sentinel-titled chapter, and on a document whose final
heading-shaped line follows a matched chapter, that line is absorbed into
the preceding chapter's content. -/
theorem C10_heading_requires_newline :
    (∀ (content : List Char) (st g : Nat),
      (st, g) ∈ scanMatches content 0 → content[st + g]? = some '\n') ∧
    split_into_chapters lastLineHeadingDoc =
      [{ title := sentinelTitle, content := lastLineHeadingDoc }] ∧
    split_into_chapters absorbedHeadingDoc =
      [{ title := ['第', '1', '章', ' ', 'a'],
         content := ['x', '\n', '第', '2', '章', ' ', 'b'] }] := by
  refine ⟨scanMatches_mem_newline, by decide, by decide⟩

/-- C10 witness: the newline property instantiated on a concrete match. -/
theorem C10_witness : twoHeadingDoc[0 + 5]? = some '\n' :=
  C10_heading_requires_newline.1 twoHeadingDoc 0 5 (by decide)

theorem string_ne_empty_length_pos (v : String) (h : v ≠ "") : 0 < v.length := by
  cases v with
  | mk data =>
    cases data with
    | nil => exact absurd (by decide) h
    | cons a l => simp [String.length]

theorem updateField_self (x : Option String) : updateField x x = x := by
  cases x with
  | none => rfl
  | some v =>
    simp only [updateField]
    rw [if_neg]
    rintro ⟨h1, h2 | h2⟩
    · cases h2
    · simp at h2

theorem updateField_eq_spec (stored incoming : Option String) :
    updateField stored incoming = specMergeField stored incoming := by
  cases incoming with
  | none => rfl
  | some v =>
    by_cases hv : v = ""
    · simp [updateField, specMergeField, hv]
    cases stored with
    | none =>
      have := string_ne_empty_length_pos v hv
      simp [updateField, specMergeField, hv, this]
    | some s =>
      by_cases hl : s.length < v.length
      · simp [updateField, specMergeField, hv, hl]
      · simp [updateField, specMergeField, hv, hl]

theorem updateField_equal_length (v w : String) (h : v.length = w.length) :
    updateField (some v) (some w) = some v := by
  simp only [updateField]
  rw [if_neg]
  rintro ⟨h1, h2 | h2⟩
  · cases h2
  · simp at h2; omega

theorem mergeInto_seed (r : CharRecord) :
    mergeInto (seedRecord r) r =
      { name := r.name, appearance := r.appearance, personality := r.personality,
        relationships := r.relationships, first_appearance := r.first_appearance,
        significance := r.significance, appearances := 2,
        chapters := [r.first_appearance.getD "", r.first_appearance.getD ""] } := by
  simp [mergeInto, seedRecord, updateField_self]

theorem lookupName_append_single_ne (n m : String) (x : MergedRecord)
    (acc : List (String × MergedRecord)) (h : m ≠ n) :
    lookupName n (acc ++ [(m, x)]) = lookupName n acc := by
  induction acc with
  | nil => simp [lookupName, h]
  | cons p rest ih =>
    obtain ⟨k, v⟩ := p
    by_cases hk : k = n
    · simp [lookupName, hk]
    · simp [lookupName, hk, ih]

theorem lookupName_append_single_self (n : String) (x : MergedRecord)
    (acc : List (String × MergedRecord)) (h : lookupName n acc = none) :
    lookupName n (acc ++ [(n, x)]) = some x := by
  induction acc with
  | nil => simp [lookupName]
  | cons p rest ih =>
    obtain ⟨k, v⟩ := p
    by_cases hk : k = n
    · rw [lookupName, if_pos hk] at h
      cases h
    · rw [lookupName, if_neg hk] at h
      rw [List.cons_append, lookupName, if_neg hk]
      exact ih h

theorem lookupName_updateAssoc_ne (n m : String) (c : CharRecord)
    (acc : List (String × MergedRecord)) (h : n ≠ m) :
    lookupName n (updateAssoc m c acc) = lookupName n acc := by
  induction acc with
  | nil => simp [updateAssoc]
  | cons p rest ih =>
    obtain ⟨k, v⟩ := p
    by_cases hk : k = m
    · rw [updateAssoc, if_pos hk]
      rw [lookupName, lookupName, if_neg (by rw [hk]; exact fun e => h e.symm),
        if_neg (by rw [hk]; exact fun e => h e.symm)]
    · rw [updateAssoc, if_neg hk]
      by_cases hn : k = n
      · rw [lookupName, lookupName, if_pos hn, if_pos hn]
      · rw [lookupName, lookupName, if_neg hn, if_neg hn]
        exact ih

theorem lookupName_updateAssoc_self (n : String) (c : CharRecord)
    (acc : List (String × MergedRecord)) (m : MergedRecord)
    (h : lookupName n acc = some m) :
    lookupName n (updateAssoc n c acc) = some (mergeInto m c) := by
  induction acc with
  | nil => simp [lookupName] at h
  | cons p rest ih =>
    obtain ⟨k, v⟩ := p
    by_cases hk : k = n
    · rw [lookupName, if_pos hk] at h
      rw [updateAssoc, if_pos hk, lookupName, if_pos hk]
      rw [Option.some.injEq] at h
      rw [h]
    · rw [lookupName, if_neg hk] at h
      rw [updateAssoc, if_neg hk, lookupName, if_neg hk]
      exact ih h

theorem mergeOne_falsy (acc : List (String × MergedRecord)) (c : CharRecord)
    (h : c.name = none ∨ c.name = some "") : mergeOne acc c = acc := by
  rcases h with h | h <;> simp [mergeOne, h]

theorem mergeOne_new (acc : List (String × MergedRecord)) (c : CharRecord)
    (n : String) (hn : c.name = some n) (hne : n ≠ "")
    (h : lookupName n acc = none) :
    mergeOne acc c = acc ++ [(n, seedRecord c)] := by
  simp [mergeOne, hn, hne, h]

theorem lookupName_mergeOne_ne (acc : List (String × MergedRecord))
    (c : CharRecord) (n : String) (h : c.name ≠ some n) :
    lookupName n (mergeOne acc c) = lookupName n acc := by
  cases hn : c.name with
  | none => simp [mergeOne, hn]
  | some m =>
    have hm : m ≠ n := fun e => h (by rw [hn, e])
    by_cases he : m = ""
    · simp [mergeOne, hn, he]
    · simp only [mergeOne, hn]
      rw [if_neg he]
      cases hl : lookupName m acc with
      | none => exact lookupName_append_single_ne n m _ acc hm
      | some x => exact lookupName_updateAssoc_ne n m c acc (Ne.symm hm)

theorem lookupName_mergeOne_seen (acc : List (String × MergedRecord))
    (c : CharRecord) (n : String) (m : MergedRecord)
    (hn : c.name = some n) (hne : n ≠ "") (h : lookupName n acc = some m) :
    lookupName n (mergeOne acc c) = some (mergeInto m c) := by
  simp only [mergeOne, hn]
  rw [if_neg hne, h]
  exact lookupName_updateAssoc_self n c acc m h

theorem lookupName_foldl_absent (l : List CharRecord) (n : String) :
    ∀ acc, (∀ c ∈ l, c.name ≠ some n) →
      lookupName n (l.foldl mergeOne acc) = lookupName n acc := by
  induction l with
  | nil => intro acc _; rfl
  | cons c rest ih =>
    intro acc h
    rw [List.foldl_cons, ih _ (fun x hx => h x (List.mem_cons_of_mem _ hx))]
    exact lookupName_mergeOne_ne acc c n (h c (List.mem_cons_self _ _))

/-- C3: in merge_character_data, when a record for an already-seen name
is processed, each of the four descriptive fields of the stored merged
record is replaced by the incoming value exactly when the incoming value
is present, non-empty, and strictly longer (by character count) than the
currently stored value; in particular an incoming value of equal length
never overwrites the stored one. -/
theorem C3_field_update_iff :
    (∀ (m : MergedRecord) (c : CharRecord),
      (mergeInto m c).appearance = specMergeField m.appearance c.appearance ∧
      (mergeInto m c).personality = specMergeField m.personality c.personality ∧
      (mergeInto m c).relationships = specMergeField m.relationships c.relationships ∧
      (mergeInto m c).significance = specMergeField m.significance c.significance) ∧
    (∀ v w : String, v.length = w.length → updateField (some v) (some w) = some v) := by
  constructor
  · intro m c
    exact ⟨updateField_eq_spec _ _, updateField_eq_spec _ _,
      updateField_eq_spec _ _, updateField_eq_spec _ _⟩
  · exact updateField_equal_length

/-- C3 witness: an incoming value of the same length as the stored value
does not overwrite it. -/
theorem C3_witness : updateField (some "ab") (some "xy") = some "ab" :=
  C3_field_update_iff.2 "ab" "xy" rfl

/-- C7: a record whose name is missing or empty leaves the accumulated
mapping unchanged, and the first record processed for a non-empty name n
appends the seed record for n: the record's fields with appearances = 1
and chapters the one-element list holding the record's first_appearance
value (the empty string when absent). -/
theorem C7_discard_and_seed :
    (∀ (acc : List (String × MergedRecord)) (c : CharRecord),
      c.name = none ∨ c.name = some "" → mergeOne acc c = acc) ∧
    (∀ (acc : List (String × MergedRecord)) (c : CharRecord) (n : String),
      c.name = some n → n ≠ "" → lookupName n acc = none →
        mergeOne acc c = acc ++ [(n, seedRecord c)] ∧
        (seedRecord c).appearances = 1 ∧
        (seedRecord c).chapters = [c.first_appearance.getD ""]) := by
  constructor
  · exact mergeOne_falsy
  · intro acc c n hn hne h
    exact ⟨mergeOne_new acc c n hn hne h, rfl, rfl⟩

/-- C7 witness: a nameless record is discarded and a fresh named record
seeds the mapping. -/
theorem C7_witness :
    mergeOne [] noNameRecord = [] ∧
    mergeOne [] wRecord = [("甲", seedRecord wRecord)] :=
  ⟨C7_discard_and_seed.1 [] noNameRecord (Or.inl rfl),
   (C7_discard_and_seed.2 [] wRecord "甲" rfl (by decide) rfl).1⟩

/-- C4: merging a record list that contains exactly one record with a
given non-empty name, given twice as two chapters, yields for that name
a merged record with appearances = 2, chapters holding the record's
first_appearance twice, and each descriptive field carrying the (equal,
hence longer-or-equal) candidate value regardless of which copy it came
from. -/
theorem C4_merge_single_chapter_twice (l1 l2 : List CharRecord)
    (r : CharRecord) (n : String) (hne : n ≠ "") (hr : r.name = some n)
    (h1 : ∀ c ∈ l1, c.name ≠ some n) (h2 : ∀ c ∈ l2, c.name ≠ some n) :
    lookupName n (merge_character_data [l1 ++ r :: l2, l1 ++ r :: l2]) =
      some { name := r.name, appearance := r.appearance,
             personality := r.personality, relationships := r.relationships,
             first_appearance := r.first_appearance,
             significance := r.significance, appearances := 2,
             chapters := [r.first_appearance.getD "",
                          r.first_appearance.getD ""] } := by
  rw [← mergeInto_seed]
  unfold merge_character_data
  rw [List.foldl_cons, List.foldl_cons, List.foldl_nil]
  have hA : lookupName n (List.foldl mergeOne ([] : List (String × MergedRecord)) l1) = none := by
    rw [lookupName_foldl_absent l1 n [] h1]; rfl
  have hfirst : lookupName n (List.foldl mergeOne ([] : List (String × MergedRecord)) (l1 ++ r :: l2)) =
      some (seedRecord r) := by
    rw [List.foldl_append, List.foldl_cons,
      lookupName_foldl_absent l2 n _ h2,
      mergeOne_new _ r n hr hne hA]
    exact lookupName_append_single_self n _ _ hA
  rw [List.foldl_append, List.foldl_cons, lookupName_foldl_absent l2 n _ h2]
  have hmid : lookupName n (List.foldl mergeOne
      (List.foldl mergeOne ([] : List (String × MergedRecord)) (l1 ++ r :: l2)) l1) =
      some (seedRecord r) := by
    rw [lookupName_foldl_absent l1 n _ h1]
    exact hfirst
  exact lookupName_mergeOne_seen _ r n _ hr hne hmid

/-- C4 witness: the theorem at a concrete single-record chapter list. -/
theorem C4_witness :
    lookupName "甲" (merge_character_data [[wRecord], [wRecord]]) =
      some { name := some "甲", appearance := some "高",
             personality := some "冷静", relationships := none,
             first_appearance := some "第1章", significance := some "",
             appearances := 2, chapters := ["第1章", "第1章"] } := by
  have h := C4_merge_single_chapter_twice [] [] wRecord "甲" (by decide) rfl
    (by intro c hc; cases hc) (by intro c hc; cases hc)
  simpa using h

theorem keys_updateAssoc (n : String) (c : CharRecord)
    (acc : List (String × MergedRecord)) :
    (updateAssoc n c acc).map Prod.fst = acc.map Prod.fst := by
  induction acc with
  | nil => rfl
  | cons p rest ih =>
    obtain ⟨k, v⟩ := p
    by_cases hk : k = n
    · rw [updateAssoc, if_pos hk]
      simp
    · rw [updateAssoc, if_neg hk]
      simp [ih]

theorem lookupName_eq_none_iff (n : String) (acc : List (String × MergedRecord)) :
    lookupName n acc = none ↔ n ∉ acc.map Prod.fst := by
  induction acc with
  | nil => simp [lookupName]
  | cons p rest ih =>
    obtain ⟨k, v⟩ := p
    by_cases hk : k = n
    · subst hk
      simp [lookupName]
    · rw [lookupName, if_neg hk]
      simp only [List.map_cons, List.mem_cons, ih]
      constructor
      · rintro h (h1 | h1)
        · exact hk h1.symm
        · exact h h1
      · intro h h1
        exact h (Or.inr h1)

theorem keys_mergeOne (acc : List (String × MergedRecord)) (c : CharRecord) :
    (mergeOne acc c).map Prod.fst =
      if c.name.getD "" = "" ∨ c.name.getD "" ∈ acc.map Prod.fst
      then acc.map Prod.fst
      else acc.map Prod.fst ++ [c.name.getD ""] := by
  cases hn : c.name with
  | none =>
    simp [mergeOne, hn]
  | some m =>
    simp only [hn, Option.getD_some]
    by_cases he : m = ""
    · simp [mergeOne, hn, he]
    · simp only [mergeOne, hn]
      rw [if_neg he]
      cases hl : lookupName m acc with
      | none =>
        have hm : m ∉ acc.map Prod.fst := (lookupName_eq_none_iff m acc).mp hl
        rw [if_neg (by rintro (h | h); exact he h; exact hm h)]
        simp
      | some x =>
        have hm : m ∈ acc.map Prod.fst := by
          by_contra hm
          rw [(lookupName_eq_none_iff m acc).mpr hm] at hl
          cases hl
        rw [if_pos (Or.inr hm)]
        exact keys_updateAssoc m c acc

theorem newNames_congr (l : List String) :
    ∀ (s1 s2 : List String), (∀ x, x ∈ s1 ↔ x ∈ s2) →
      newNames s1 l = newNames s2 l := by
  induction l with
  | nil => intro s1 s2 _; rfl
  | cons a rest ih =>
    intro s1 s2 h
    by_cases hc : a = "" ∨ a ∈ s1
    · have hc2 : a = "" ∨ a ∈ s2 := by
        rcases hc with hc | hc
        · exact Or.inl hc
        · exact Or.inr ((h a).mp hc)
      rw [newNames, newNames, if_pos hc, if_pos hc2]
      exact ih s1 s2 h
    · have hc2 : ¬(a = "" ∨ a ∈ s2) := by
        rintro (h1 | h1)
        · exact hc (Or.inl h1)
        · exact hc (Or.inr ((h a).mpr h1))
      rw [newNames, newNames, if_neg hc, if_neg hc2]
      rw [ih (a :: s1) (a :: s2) (by intro x; simp [h x])]

theorem keys_foldl_mergeOne (cs : List CharRecord) :
    ∀ (acc : List (String × MergedRecord)),
      (cs.foldl mergeOne acc).map Prod.fst =
        acc.map Prod.fst ++
          newNames (acc.map Prod.fst) (cs.map (fun c => c.name.getD "")) := by
  induction cs with
  | nil => intro acc; simp [newNames]
  | cons c rest ih =>
    intro acc
    rw [List.foldl_cons, ih (mergeOne acc c), keys_mergeOne acc c,
      List.map_cons, newNames]
    by_cases hc : c.name.getD "" = "" ∨ c.name.getD "" ∈ acc.map Prod.fst
    · rw [if_pos hc, if_pos hc]
    · rw [if_neg hc, if_neg hc]
      rw [newNames_congr _ (acc.map Prod.fst ++ [c.name.getD ""])
        (c.name.getD "" :: acc.map Prod.fst) (by intro x; simp; tauto)]
      simp

theorem merge_foldl_flatten (ls : List (List CharRecord)) :
    merge_character_data ls = (ls.flatten).foldl mergeOne [] := by
  rw [merge_character_data, List.foldl_flatten]

theorem mem_newNames (l : List String) :
    ∀ (seen : List String) (n : String),
      n ∈ newNames seen l ↔ n ∉ seen ∧ n ≠ "" ∧ n ∈ l := by
  induction l with
  | nil => intro seen n; simp [newNames]
  | cons a rest ih =>
    intro seen n
    by_cases hc : a = "" ∨ a ∈ seen
    · rw [newNames, if_pos hc, ih seen n]
      simp only [List.mem_cons]
      constructor
      · rintro ⟨h1, h2, h3⟩
        exact ⟨h1, h2, Or.inr h3⟩
      · rintro ⟨h1, h2, h3⟩
        rcases h3 with rfl | h3
        · rcases hc with hc | hc
          · exact absurd hc h2
          · exact absurd hc h1
        · exact ⟨h1, h2, h3⟩
    · rw [newNames, if_neg hc]
      simp only [List.mem_cons, ih (a :: seen) n, List.mem_cons]
      constructor
      · rintro (rfl | ⟨h1, h2, h3⟩)
        · refine ⟨fun h => hc (Or.inr h), fun h => hc (Or.inl h), Or.inl rfl⟩
        · exact ⟨fun h => h1 (Or.inr h), h2, Or.inr h3⟩
      · rintro ⟨h1, h2, rfl | h3⟩
        · exact Or.inl rfl
        · by_cases hna : n = a
          · exact Or.inl hna
          · exact Or.inr ⟨by rintro (h | h); exact hna h; exact h1 h, h2, h3⟩

theorem nodup_newNames (l : List String) :
    ∀ (seen : List String), (newNames seen l).Nodup := by
  induction l with
  | nil => intro seen; simp [newNames]
  | cons a rest ih =>
    intro seen
    by_cases hc : a = "" ∨ a ∈ seen
    · rw [newNames, if_pos hc]
      exact ih seen
    · rw [newNames, if_neg hc]
      refine List.nodup_cons.mpr ⟨?_, ih (a :: seen)⟩
      intro hmem
      have := ((mem_newNames rest (a :: seen) a).mp hmem).1
      exact this (List.mem_cons_self _ _)

/-- C8: merge_character_data is a function of the ordered list of
per-chapter record lists whose result has exactly one entry per distinct
non-empty name of the input: its key sequence equals the first-seen-order
deduplication of the (chapter-then-record) name stream, contains no
duplicate (a name is never split into two entries), and a name is a key
exactly when it occurs non-empty somewhere in the input, so the key set
is independent of input order. -/
theorem C8_keys_first_seen (ls : List (List CharRecord)) :
    (merge_character_data ls).map Prod.fst =
      newNames [] ((ls.flatten).map (fun c => c.name.getD "")) ∧
    ((merge_character_data ls).map Prod.fst).Nodup ∧
    (∀ n : String, n ∈ (merge_character_data ls).map Prod.fst ↔
      n ≠ "" ∧ n ∈ (ls.flatten).map (fun c => c.name.getD "")) := by
  have hk : (merge_character_data ls).map Prod.fst =
      newNames [] ((ls.flatten).map (fun c => c.name.getD "")) := by
    rw [merge_foldl_flatten, keys_foldl_mergeOne]
    simp
  refine ⟨hk, ?_, ?_⟩
  · rw [hk]
    exact nodup_newNames _ []
  · intro n
    rw [hk, mem_newNames]
    simp


theorem characterSection_rule_eq_spec (nd : String × MergedRecord) :
    characterSection nd.1 nd.2 ++ ruleLine = specSection nd := by
  obtain ⟨name, d⟩ := nd
  obtain ⟨dn, da, dp, dr, df, ds, dk, dc⟩ := d
  cases da <;> cases dp <;> cases dr <;> cases ds <;> rfl

theorem report_foldl (l : List (String × MergedRecord)) :
    ∀ init : String,
      l.foldl (fun rep nd => rep ++ characterSection nd.1 nd.2 ++ ruleLine) init =
        init ++ specSections l := by
  induction l with
  | nil => intro init; simp [specSections]
  | cons nd rest ih =>
    intro init
    rw [List.foldl_cons, ih, specSections, ← characterSection_rule_eq_spec nd]
    simp [String.append_assoc]

/-- C9: generate_final_report equals the report transcribed from the
spec: a statistics block showing the chapter count, the success count
(chapter count minus failed count), the failure count and the character
count, followed by one section per character in mapping order — name,
appearances, comma-joined chapters and the four descriptive fields with
the 无记录 placeholder exactly when the key is absent — each section
closed by the rule line. -/
theorem C9_report_matches_spec (chapters : List Chapter)
    (characters : List (String × MergedRecord)) (failed : Nat) :
    generate_final_report chapters characters failed =
      reportSpec chapters characters failed := by
  rw [generate_final_report, reportSpec, report_foldl]

/-- C2 counterexample: the first attempt fails without a timeout (HTTP
500, unparsable body), yet the call makes a second attempt and succeeds;
so a non-timeout failure of an attempt does not end the call, contrary to
the claim. -/
theorem C2_counterexample :
    cexOutcomes 0 = AttemptOutcome.response 500 ParseResult.decodeError ∧
    (_call_model_api cexOutcomes).2.1 = 2 ∧
    (_call_model_api cexOutcomes).1 = some "ok" := by
  refine ⟨rfl, by decide, by decide⟩

theorem countTimeoutSleeps_succ (f : Nat → AttemptOutcome) (maxR a n : Nat) :
    countTimeoutSleeps f maxR a (n + 1) =
      (if f a = AttemptOutcome.timeout ∧ a < maxR - 1 then 1 else 0) +
        countTimeoutSleeps f maxR (a + 1) n := rfl

theorem countTimeoutSleeps_one (f : Nat → AttemptOutcome) (maxR a : Nat) :
    countTimeoutSleeps f maxR a 1 =
      if f a = AttemptOutcome.timeout ∧ a < maxR - 1 then 1 else 0 := rfl

theorem callApiAux_timeout (d maxR : Nat) (f : Nat → AttemptOutcome) (a n : Nat)
    (h : f a = AttemptOutcome.timeout) :
    callApiAux d maxR f a (n + 1) =
      ((callApiAux d maxR f (a + 1) n).1,
       (callApiAux d maxR f (a + 1) n).2.1 + 1,
       (callApiAux d maxR f (a + 1) n).2.2 + if a < maxR - 1 then d else 0) := by
  simp only [callApiAux, h]

theorem callApiAux_break (d maxR : Nat) (f : Nat → AttemptOutcome) (a n : Nat)
    (h : f a = AttemptOutcome.otherException) :
    callApiAux d maxR f a (n + 1) = (none, 1, 0) := by
  simp only [callApiAux, h]

theorem callApiAux_success (d maxR : Nat) (f : Nat → AttemptOutcome) (a n : Nat)
    (v : String) (h : f a = AttemptOutcome.response 200 (ParseResult.ok v)) :
    callApiAux d maxR f a (n + 1) = (some v, 1, 0) := by
  simp only [callApiAux, h]
  simp

theorem callApiAux_continue (d maxR : Nat) (f : Nat → AttemptOutcome) (a n : Nat)
    (h : isRetryable (f a) = true) (hnt : f a ≠ AttemptOutcome.timeout) :
    callApiAux d maxR f a (n + 1) =
      ((callApiAux d maxR f (a + 1) n).1,
       (callApiAux d maxR f (a + 1) n).2.1 + 1,
       (callApiAux d maxR f (a + 1) n).2.2) := by
  cases hfa : f a with
  | timeout => exact absurd hfa hnt
  | otherException => rw [hfa] at h; simp [isRetryable] at h
  | response status p =>
    by_cases hs : status = 200
    · subst hs
      cases p with
      | ok v => rw [hfa] at h; simp [isRetryable] at h
      | decodeError => simp [callApiAux, hfa]
      | nonDict => simp [callApiAux, hfa]
      | missingFields => simp [callApiAux, hfa]
    · simp only [callApiAux, hfa]
      rw [if_pos (by simpa using hs)]

theorem callApiAux_spec (d maxR : Nat) (f : Nat → AttemptOutcome) :
    ∀ (fuel a : Nat),
      (callApiAux d maxR f a fuel).2.1 ≤ fuel ∧
      (∀ k, k + 1 < (callApiAux d maxR f a fuel).2.1 →
        isRetryable (f (a + k)) = true) ∧
      (∀ k, k < fuel → (∀ j, j < k → isRetryable (f (a + j)) = true) →
        k < (callApiAux d maxR f a fuel).2.1) ∧
      (callApiAux d maxR f a fuel).2.2 =
        d * countTimeoutSleeps f maxR a (callApiAux d maxR f a fuel).2.1 := by
  intro fuel
  induction fuel with
  | zero =>
    intro a
    refine ⟨Nat.le_refl 0, ?_, ?_, ?_⟩ <;> simp [callApiAux, countTimeoutSleeps]
  | succ n ih =>
    intro a
    obtain ⟨ih1, ih2, ih3, ih4⟩ := ih (a + 1)
    by_cases hretry : isRetryable (f a) = true
    · -- the loop continues past attempt a (with or without a sleep)
      have hcont : ∀ k, k + 1 < (callApiAux d maxR f (a + 1) n).2.1 + 1 →
          isRetryable (f (a + k)) = true := by
        intro k hk
        cases k with
        | zero => simpa using hretry
        | succ k' =>
          have e : a + (k' + 1) = (a + 1) + k' := by omega
          rw [e]
          exact ih2 k' (by omega)
      have hcomplete : ∀ k, k < n + 1 →
          (∀ j, j < k → isRetryable (f (a + j)) = true) →
          k < (callApiAux d maxR f (a + 1) n).2.1 + 1 := by
        intro k hk hall
        cases k with
        | zero => omega
        | succ k' =>
          have : k' < (callApiAux d maxR f (a + 1) n).2.1 := by
            refine ih3 k' (by omega) ?_
            intro j hj
            have e : (a + 1) + j = a + (j + 1) := by omega
            rw [e]
            exact hall (j + 1) (by omega)
          omega
      by_cases hto : f a = AttemptOutcome.timeout
      · rw [callApiAux_timeout d maxR f a n hto]
        refine ⟨by simpa using Nat.add_le_add_right ih1 1, hcont, hcomplete, ?_⟩
        rw [countTimeoutSleeps_succ, ih4]
        by_cases hm : a < maxR - 1
        · simp [hto, hm, Nat.mul_add, Nat.add_comm]
        · simp [hto, hm]
      · rw [callApiAux_continue d maxR f a n hretry hto]
        refine ⟨by simpa using Nat.add_le_add_right ih1 1, hcont, hcomplete, ?_⟩
        rw [countTimeoutSleeps_succ, ih4]
        simp [hto]
    · -- attempt a ends the call: a break or a success
      have hstop : callApiAux d maxR f a (n + 1) =
          ((callApiAux d maxR f a (n + 1)).1, 1, 0) := by
        cases hfa : f a with
        | timeout => rw [hfa] at hretry; simp [isRetryable] at hretry
        | otherException => rw [callApiAux_break d maxR f a n hfa]
        | response status p =>
          by_cases hs : status = 200
          · subst hs
            cases p with
            | ok v => rw [callApiAux_success d maxR f a n v hfa]
            | decodeError => rw [hfa] at hretry; simp [isRetryable] at hretry
            | nonDict => rw [hfa] at hretry; simp [isRetryable] at hretry
            | missingFields => rw [hfa] at hretry; simp [isRetryable] at hretry
          · rw [hfa] at hretry
            simp [isRetryable, hs] at hretry
      rw [hstop]
      dsimp only
      refine ⟨by omega, ?_, ?_, ?_⟩
      · intro k hk
        omega
      · intro k hk hall
        by_cases hz : k = 0
        · omega
        · exfalso
          have h0 := hall 0 (by omega)
          rw [Nat.add_zero] at h0
          exact hretry h0
      · rw [countTimeoutSleeps_one]
        have hnt : ¬f a = AttemptOutcome.timeout := by
          intro hfa
          rw [hfa] at hretry
          simp [isRetryable] at hretry
        simp [hnt]

/-- C2 (amended): within a single call at most max_retries attempts are
made; every attempt followed by a further attempt ended in a retryable
outcome — a transport-level timeout, a non-200 status, or a 200 response
with malformed JSON, a non-dict body or missing expected fields — so only
an unexpected non-timeout exception or a well-formed success ends the
call early; conversely attempts continue while outcomes are retryable and
attempts remain; and the total time slept equals the fixed delay times
the number of timeout outcomes among non-final allowed attempts, so the
delay is slept only between timeout-triggered attempts. -/
theorem C2_amended_retry_behaviour (f : Nat → AttemptOutcome) :
    (_call_model_api f).2.1 ≤ max_retries ∧
    (∀ k, k + 1 < (_call_model_api f).2.1 → isRetryable (f k) = true) ∧
    (∀ k, k < max_retries → (∀ j, j < k → isRetryable (f j) = true) →
      k < (_call_model_api f).2.1) ∧
    (_call_model_api f).2.2 =
      retry_delay * countTimeoutSleeps f max_retries 0 (_call_model_api f).2.1 := by
  have h := callApiAux_spec retry_delay max_retries f max_retries 0
  simpa [_call_model_api] using h

/-- C2 witness: the amended statement instantiated on the concrete
outcome sequence whose first attempt fails with a non-timeout error. -/
theorem C2_witness : isRetryable (cexOutcomes 0) = true :=
  (C2_amended_retry_behaviour cexOutcomes).2.1 0 (by decide)
